import Mathlib

/-!
Verification development for the epub-to-txt converter core
(src/epub_to_txt.py).  Python strings are modelled as Lean `String` or
`List Char`, byte strings as `List Nat`, and calls into external
libraries (BeautifulSoup's get_text, chardet's detect, the utf-16
codec, the html entity table) as explicit function parameters.
-/

namespace EpubToTxt

/-- Character class of the regex `[ \t]` (horizontal whitespace). -/

def isWsChar (c : Char) : Bool := c = ' ' || c = '\t'

/-- One pass of `re.sub(r'\n{2,}', '\n\n', text)`: `n` counts the pending
run of newlines already scanned; a maximal run of `k` newlines is emitted
as `min k 2` newlines, which is exactly what replacing every maximal run
of two or more newlines by two newlines does. -/

def collapseAux : Nat → List Char → List Char
  | n, [] => List.replicate (min n 2) '\n'
  | n, c :: rest =>
    if c = '\n' then collapseAux (n + 1) rest
    else List.replicate (min n 2) '\n' ++ c :: collapseAux 0 rest

/-- Model of `re.sub(r'\n{2,}', '\n\n', text)` from clean_text. -/

def collapseNewlines (l : List Char) : List Char := collapseAux 0 l

/-- Lines of a character list, splitting at every newline; this is the
line structure seen by the `re.MULTILINE` anchors `^` and `$`. -/

def splitLines : List Char → List (List Char)
  | [] => [[]]
  | c :: rest =>
    if c = '\n' then [] :: splitLines rest
    else
      match splitLines rest with
      | [] => [[c]]
      | ln :: more => (c :: ln) :: more

/-- Join lines back with a newline separator (inverse of splitLines). -/

def joinLines : List (List Char) → List Char
  | [] => []
  | [ln] => ln
  | ln :: more => ln ++ '\n' :: joinLines more

/-- Test of the regex `^[ \t]+$` against one full line. -/

def lineWsOnly (l : List Char) : Bool := !l.isEmpty && l.all isWsChar

/-- Model of `re.sub(r'^[ \t]+$', '', text, flags=re.MULTILINE)`: every
line made of one or more spaces/tabs is replaced by an empty line,
other lines are kept verbatim. -/

def stripWsLines (l : List Char) : List Char :=
  joinLines ((splitLines l).map fun ln => if lineWsOnly ln then [] else ln)

/-- Model of `html.unescape` from the Python standard library: it returns
its input unchanged when no ampersand occurs (the stdlib short-circuits
on `'&' not in s`); the substitution of character references on inputs
that do contain an ampersand is kept abstract as the parameter
`subRefs`, since it is stdlib behaviour driven by the html5 entity
table, not code of this repository. -/

def unescape (subRefs : List Char → List Char) (l : List Char) : List Char :=
  if '&' ∈ l then subRefs l else l

/-- Model of `clean_text` (src/epub_to_txt.py lines 81-86):
`html.unescape`, then collapse newline runs, then blank out
whitespace-only lines, in that order. -/

def clean_text (subRefs : List Char → List Char) (l : List Char) : List Char :=
  stripWsLines (collapseNewlines (unescape subRefs l))

/-- clean_text lifted to Lean strings. -/

def cleanTextStr (subRefs : List Char → List Char) (s : String) : String :=
  String.mk (clean_text subRefs s.toList)

/-- Identity character-reference substitution, used to instantiate the
abstract substitution at concrete inputs that contain no ampersand
(where `html.unescape` does not look at the table at all). -/

def idRefs : List Char → List Char := fun l => l

/-- Detector of a run of three or more consecutive newlines. -/

def noTriple : List Char → Bool
  | [] => true
  | c :: rest =>
    match rest with
    | c2 :: c3 :: _ =>
      if c = '\n' ∧ c2 = '\n' ∧ c3 = '\n' then false else noTriple rest
    | _ => true

/-- First line of a character list: everything before the first newline. -/

def firstLine : List Char → List Char
  | [] => []
  | c :: rest => if c = '\n' then [] else c :: firstLine rest

/-- Nonempty lines of a line list. -/

def neLines (L : List (List Char)) : List (List Char) :=
  L.filter fun ln => !ln.isEmpty

/-- Whether some line of the text consists only of horizontal
whitespace (and is nonempty). -/

def hasWsLine (l : List Char) : Bool := (splitLines l).any lineWsOnly

/-- Whether a byte is a UTF-8 continuation byte (0x80-0xBF). -/

def isCont (b : Nat) : Bool := 0x80 ≤ b && b ≤ 0xBF

/-- Strict UTF-8 decoder over bytes-as-naturals, returning none exactly
on input Python's bytes.decode('utf-8') rejects: stray continuation
bytes, overlong forms, surrogates, code points beyond U+10FFFF,
truncated sequences, and start bytes above 0xF4. -/

def utf8Decode? : List Nat → Option (List Char)
  | [] => some []
  | b :: rest =>
    if b < 0x80 then (utf8Decode? rest).map fun cs => Char.ofNat b :: cs
    else if b < 0xC2 then none
    else if b ≤ 0xDF then
      match rest with
      | b2 :: rest2 =>
        if isCont b2 then
          (utf8Decode? rest2).map fun cs =>
            Char.ofNat ((b - 0xC0) * 0x40 + (b2 - 0x80)) :: cs
        else none
      | [] => none
    else if b ≤ 0xEF then
      match rest with
      | b2 :: b3 :: rest3 =>
        if (if b = 0xE0 then 0xA0 ≤ b2 && b2 ≤ 0xBF
            else if b = 0xED then 0x80 ≤ b2 && b2 ≤ 0x9F
            else isCont b2) && isCont b3 then
          (utf8Decode? rest3).map fun cs =>
            Char.ofNat ((b - 0xE0) * 0x1000 + (b2 - 0x80) * 0x40 + (b3 - 0x80)) :: cs
        else none
      | _ => none
    else if b ≤ 0xF4 then
      match rest with
      | b2 :: b3 :: b4 :: rest4 =>
        if (if b = 0xF0 then 0x90 ≤ b2 && b2 ≤ 0xBF
            else if b = 0xF4 then 0x80 ≤ b2 && b2 ≤ 0x8F
            else isCont b2) && isCont b3 && isCont b4 then
          (utf8Decode? rest4).map fun cs =>
            Char.ofNat ((b - 0xF0) * 0x40000 + (b2 - 0x80) * 0x1000 +
              (b3 - 0x80) * 0x40 + (b4 - 0x80)) :: cs
        else none
      | _ => none
    else none

/-- Model of safe_decode (src/epub_to_txt.py lines 18-26).  The utf-16
codec (whose no-BOM byte order is a platform property of CPython), the
chardet statistical detector, and decoding with errors='replace' under
a detected encoding name are external libraries, passed in as
parameters; decoding with errors='replace' is total by its contract,
which the parameter's type records. -/

def safe_decode (utf16dec : List Nat → Option String)
    (detect : List Nat → Option String)
    (decodeReplace : String → List Nat → String)
    (data : List Nat) : String :=
  match utf8Decode? data with
  | some cs => String.mk cs
  | none =>
    match utf16dec data with
    | some s => s
    | none => decodeReplace ((detect data).getD "utf-8") data

/-- Decode chain as the spec words it (spec section 4.1): attempt UTF-8
strict, then UTF-16 strict; if both fail, decode with the detector's
best guess, or utf-8 when the detector has none, with replacement. -/

def specDecodeChain (utf16dec : List Nat → Option String)
    (detect : List Nat → Option String)
    (decodeReplace : String → List Nat → String)
    (data : List Nat) : String :=
  (((utf8Decode? data).map String.mk).or (utf16dec data)).getD
    (decodeReplace ((detect data).getD "utf-8") data)

/-- ASCII lowercasing of one character; model of str.lower restricted
to the ASCII range (Python's str.lower also folds non-ASCII letters,
which archive paths compared here do not contain). -/

def charLowerA (c : Char) : Char :=
  if 'A' ≤ c ∧ c ≤ 'Z' then Char.ofNat (c.toNat + 32) else c

/-- Model of str.lower() on archive paths. -/

def strLower (s : String) : String := String.mk (s.toList.map charLowerA)

/-- Model of normalize_path (src/epub_to_txt.py lines 76-78): replace
every backslash with a forward slash, then strip all leading slashes
(str.lstrip removes every leading occurrence). -/

def normalize_path (p : String) : String :=
  String.mk ((p.toList.map fun c => if c = '\\' then '/' else c).dropWhile
    fun c => c = '/')

/-- Model of os.path.basename (posix): everything after the last slash. -/

def basename (p : String) : String :=
  String.mk ((p.toList.reverse.takeWhile fun c => c != '/').reverse)

/-- Model of os.path.dirname (posix): the part up to the last slash;
trailing slashes are stripped unless the result is all slashes. -/

def dirname (p : String) : String :=
  let cs := p.toList
  let revAfter := cs.reverse.takeWhile fun c => c != '/'
  if revAfter.length = cs.length then ""
  else
    let head := cs.take (cs.length - revAfter.length)
    if head.all fun c => c = '/' then String.mk head
    else String.mk ((head.reverse.dropWhile fun c => c = '/').reverse)

/-- Model of os.path.splitext (posix): split off the extension at the
last dot of the base name, unless every character of the base name
before that dot is itself a dot. -/

def splitext (p : String) : String × String :=
  let cs := p.toList
  let base := cs.reverse.takeWhile fun c => c != '/'
  let revExt := base.takeWhile fun c => c != '.'
  if revExt.length = base.length then (p, "")
  else
    let stem := (base.drop (revExt.length + 1)).reverse
    if stem.all fun c => c = '.' then (p, "")
    else (String.mk (cs.take (cs.length - revExt.length - 1)),
          String.mk ('.' :: revExt.reverse))

/-- Computable prefix test on strings (str.startswith). -/

def strStartsWith (s pre : String) : Bool := pre.toList.isPrefixOf s.toList

/-- Computable suffix test on strings (str.endswith). -/

def strEndsWith (s suf : String) : Bool := suf.toList.isSuffixOf s.toList

/-- Model of os.path.join (posix) for two components. -/

def pathJoin (a b : String) : String :=
  if strStartsWith b "/" then b
  else if a = "" || strEndsWith a "/" then a ++ b
  else a ++ "/" ++ b

/-- Python dict assignment: the new binding shadows any earlier one. -/

def dictInsert (m : List (String × String)) (k v : String) :
    List (String × String) := (k, v) :: m

/-- Python dict lookup, returning the most recently assigned value. -/

def dictGet? (m : List (String × String)) (k : String) : Option String :=
  (m.find? fun p => p.1 == k).map fun p => p.2

/-- Data extracted from the container and package XML by the external
defusedxml-based parsing layer of get_spine_order: the rootfile
full-path attribute, the (id, href) attribute pairs of the manifest
item elements in document order, and the idref attributes of the spine
itemref elements in document order.  A parse failure at either step
(missing entry, malformed XML, missing rootfile element) is modelled as
the absence of this record. -/

structure ParsedOpf where
  rootfilePath : String
  items : List (String × String)
  itemrefs : List String
deriving DecidableEq

/-- Model of the EPUB zip archive: the entry list (name, bytes) in
namelist order, plus the parsed XML metadata. -/

structure Archive where
  entries : List (String × List Nat)
  parsed : Option ParsedOpf
deriving DecidableEq

/-- Directory of the OPF file as computed in get_spine_order lines
49-51: os.path.dirname plus a trailing slash when nonempty. -/

def opfDirOf (rootfilePath : String) : String :=
  let d := dirname rootfilePath
  if d ≠ "" ∧ ¬ strEndsWith d "/" then d ++ "/" else d

/-- Href resolution for one manifest item (lines 58-60): a relative
href is prefixed with the OPF directory. -/

def itemHref (opfDir href : String) : String :=
  if opfDir ≠ "" ∧ ¬ strStartsWith href "/" then opfDir ++ href else href

/-- Manifest mapping built by the loop of lines 54-61: dict from item
id to resolved href, assigned in document order (so a duplicated id
keeps the last assignment). -/

def buildManifest (opfDir : String) (items : List (String × String)) :
    List (String × String) :=
  items.foldl (fun m it => dictInsert m it.1 (itemHref opfDir it.2)) []

/-- Spine loop of lines 63-68: append the resolved href of every spine
idref present in the manifest mapping, skipping the others. -/

def spineLoop (manifest : List (String × String)) (itemrefs : List String) :
    List String :=
  itemrefs.foldl (fun acc idref =>
    match dictGet? manifest idref with
    | some href => acc ++ [href]
    | none => acc) []

/-- Model of get_spine_order (src/epub_to_txt.py lines 29-73): an XML
parse failure at either step yields the empty order; otherwise the
manifest mapping is built and the spine itemrefs are resolved
through it. -/

def get_spine_order (arch : Archive) : List String :=
  match arch.parsed with
  | none => []
  | some p => spineLoop (buildManifest (opfDirOf p.rootfilePath) p.items) p.itemrefs

/-- Reading order as the spec words it (spec sections 4.3 step 4 and
8): the spine itemref sequence with entries whose idref is absent from
the manifest mapping removed, relative order preserved, each remaining
entry resolved to its manifest href. -/

def specReadingOrder (manifest : List (String × String))
    (itemrefs : List String) : List String :=
  (itemrefs.filter fun r => (dictGet? manifest r).isSome).map
    fun r => (dictGet? manifest r).getD ""

/-- Sample package metadata with one spine idref absent from the
manifest. -/

def sampleOpf : ParsedOpf where
  rootfilePath := "OEBPS/content.opf"
  items := [("c1", "c1.xhtml"), ("c2", "c2.xhtml")]
  itemrefs := ["c1", "ghost", "c2"]

/-- Sample archive carrying sampleOpf. -/

def sampleArchive : Archive where
  entries := [("OEBPS/c1.xhtml", [0x68]), ("OEBPS/c2.xhtml", [0x69])]
  parsed := some sampleOpf

/-- Case-insensitive entry map built once per conversion (line 119 of
src/epub_to_txt.py): normalized lowercased path to original entry name;
a dict comprehension, so on key collisions the later entry wins. -/

def buildFileMap (names : List String) : List (String × String) :=
  names.foldl (fun m n => dictInsert m (strLower (normalize_path n)) n) []

/-- Lookup of one spine href against the entry map (lines 122-123). -/

def resolveItem (fileMap : List (String × String)) (itemPath : String) :
    Option String :=
  dictGet? fileMap (strLower (normalize_path itemPath))

/-- Conversion statistics record.  Modelled from the spec: the Python
code defines no such type (it only prints the numbers), while spec
section 3 declares ConversionStats with filesProcessed, totalBytes and
elapsedSeconds; wall-clock time is abstracted to a numeric tick
count. -/

structure ConversionStats where
  filesProcessed : Nat
  totalBytes : Nat
  elapsedSeconds : Nat
deriving DecidableEq

/-- Progress messages printed by convert_epub_to_txt, as structured
events carrying the data interpolated into each print call. -/

inductive LogEvent where
  | readingSpine (epubPath : String)
  | spineError
  | processingCount (n : Nat)
  | warnNotFound (itemPath : String)
  | converted (srcPath txtPath : String) (bytes : Nat)
  | processError (path : String)
  | mergedCreated (path : String)
  | statsReport (filesProcessed totalBytes : Nat)
  | avgReport (avgBytes : Nat)
  | timeElapsed (seconds : Nat)
deriving DecidableEq

/-- Byte length of one character under UTF-8 encoding. -/

def utf8CharLen (c : Char) : Nat :=
  if c.toNat < 0x80 then 1
  else if c.toNat < 0x800 then 2
  else if c.toNat < 0x10000 then 3
  else 4

/-- Model of len(text.encode('utf-8')). -/

def utf8Len (s : String) : Nat := (s.toList.map utf8CharLen).sum

/-- Mutable state of the per-item loop (lines 115-149): the write
events so far, the log events so far, processed_files and
total_size. -/

structure RunState where
  writes : List (String × String)
  logs : List LogEvent
  processed : List (String × Nat × String)
  totalSize : Nat
deriving DecidableEq

/-- Recognized content-document extensions (line 129), tested against
the lowercased entry name. -/

def isDocPath (lowered : String) : Bool :=
  strEndsWith lowered ".html" || strEndsWith lowered ".xhtml" ||
    strEndsWith lowered ".htm"

/-- Read of one entry from the archive (zip_ref.read). -/

def readEntry (arch : Archive) (name : String) : Option (List Nat) :=
  (arch.entries.find? fun e => e.1 == name).map fun e => e.2

/-- Model of html_to_text (lines 89-93): BeautifulSoup parsing and
visible-text extraction are an external library, passed in as the
getText parameter; the result is then passed through clean_text. -/

def html_to_text (getText : String → String)
    (subRefs : List Char → List Char) (htmlContent : String) : String :=
  cleanTextStr subRefs (getText htmlContent)

/-- Body of the per-item loop (lines 121-149) for one spine item:
resolve the path through the case-insensitive map (warn and skip when
absent), skip silently on a non-document extension, otherwise read,
decode, extract, write the per-document text file and record its
size. -/

def processItem (arch : Archive) (fileMap : List (String × String))
    (utf16dec : List Nat → Option String) (detect : List Nat → Option String)
    (decodeReplace : String → List Nat → String) (getText : String → String)
    (subRefs : List Char → List Char) (outputDir : String)
    (st : RunState) (itemPath : String) : RunState :=
  match resolveItem fileMap itemPath with
  | none => { st with logs := st.logs ++ [LogEvent.warnNotFound itemPath] }
  | some actualPath =>
    if ¬ isDocPath (strLower actualPath) then st
    else
      match readEntry arch actualPath with
      | none => { st with logs := st.logs ++ [LogEvent.processError actualPath] }
      | some htmlData =>
        let textContent := html_to_text getText subRefs
          (safe_decode utf16dec detect decodeReplace htmlData)
        let txtFilename := (splitext (basename actualPath)).1 ++ ".txt"
        let txtPath := pathJoin outputDir txtFilename
        let fileSize := utf8Len textContent
        { writes := st.writes ++ [(txtPath, textContent)]
          logs := st.logs ++ [LogEvent.converted actualPath txtPath fileSize]
          processed := st.processed ++ [(txtFilename, fileSize, textContent)]
          totalSize := st.totalSize + fileSize }

/-- Sections after the first of the merged file (the loop of lines
155-159 at index greater than zero, each preceded by the blank-line
separator written for those indices). -/

def mergedRest : List (String × Nat × String) → String
  | [] => ""
  | f :: rest =>
    "\n\n" ++ "---" ++ (splitext f.1).1 ++ "---\n\n" ++ f.2.2 ++ mergedRest rest

/-- Content of the merged file assembled by the loop of lines 154-159:
no separator before index 0; every later section preceded by one blank
line; each section a dashed header line with the document's base name,
a blank line, then the document's text. -/

def mergedContent : List (String × Nat × String) → String
  | [] => ""
  | f :: rest =>
    "---" ++ (splitext f.1).1 ++ "---\n\n" ++ f.2.2 ++ mergedRest rest

/-- Result of one call of convert_epub_to_txt: directories created,
file writes performed in order, printed log events, the processed_files
list with the total_size accumulator, and the Python return value —
always None, modelled as an absent ConversionStats. -/

structure ConvertResult where
  dirsCreated : List String
  writes : List (String × String)
  logs : List LogEvent
  processed : List (String × Nat × String)
  totalSize : Nat
  ret : Option ConversionStats
deriving DecidableEq

/-- Model of convert_epub_to_txt (src/epub_to_txt.py lines 96-169).
The elapsed parameter abstracts the time.time() difference printed at
the end (wall-clock time is outside the embedding); the codec,
detector, extraction and entity-table parameters are threaded to the
components that use them. -/

def convert_epub_to_txt (arch : Archive)
    (utf16dec : List Nat → Option String) (detect : List Nat → Option String)
    (decodeReplace : String → List Nat → String) (getText : String → String)
    (subRefs : List Char → List Char) (elapsed : Nat)
    (epubPath : String) (outputDirArg : Option String) (merge : Bool) :
    ConvertResult :=
  let outputDir := match outputDirArg with
    | none => (splitext (basename epubPath)).1
    | some d => d
  let spineItems := get_spine_order arch
  if spineItems.isEmpty then
    { dirsCreated := [outputDir]
      writes := []
      logs := [LogEvent.readingSpine epubPath, LogEvent.spineError]
      processed := []
      totalSize := 0
      ret := none }
  else
    let fileMap := buildFileMap (arch.entries.map fun e => e.1)
    let st := spineItems.foldl
      (processItem arch fileMap utf16dec detect decodeReplace getText subRefs
        outputDir)
      { writes := [], logs := [], processed := [], totalSize := 0 }
    let mergedPath := pathJoin outputDir
      ((splitext (basename epubPath)).1 ++ "_merged.txt")
    let mergedWrites :=
      if merge ∧ ¬ st.processed.isEmpty then
        [(mergedPath, mergedContent st.processed)] else []
    let mergedLogs :=
      if merge ∧ ¬ st.processed.isEmpty then
        [LogEvent.mergedCreated mergedPath] else []
    let avgLogs :=
      if ¬ st.processed.isEmpty then
        [LogEvent.avgReport (st.totalSize / st.processed.length)] else []
    { dirsCreated := [outputDir]
      writes := st.writes ++ mergedWrites
      logs := [LogEvent.readingSpine epubPath,
          LogEvent.processingCount spineItems.length] ++
        st.logs ++ mergedLogs ++
        [LogEvent.statsReport st.processed.length st.totalSize] ++ avgLogs ++
        [LogEvent.timeElapsed elapsed]
      processed := st.processed
      totalSize := st.totalSize
      ret := none }

/-- Final content at a path after a sequence of writes: the last write
to that path wins (opening with mode 'w' truncates). -/

def applyWrites (writes : List (String × String)) (path : String) :
    Option String :=
  ((writes.filter fun w => w.1 == path).getLast?).map fun w => w.2

/-- Sections joined by exactly one blank line, as the spec words the
merged-file layout (section 4.6, Scenario D). -/

def joinSections : List String → String
  | [] => ""
  | [x] => x
  | x :: rest => x ++ "\n\n" ++ joinSections rest

/-- Merged-file layout as the spec words it: one section per
successfully processed document in order, each a dashed base-name
header, a blank line, and the document text, sections separated by one
blank line, nothing before the first header. -/

def specMergedContent (files : List (String × Nat × String)) : String :=
  joinSections (files.map fun f => "---" ++ (splitext f.1).1 ++ "---\n\n" ++ f.2.2)

/-- Archive with no parseable metadata: resolution yields an empty
reading order (Scenario C of the spec: container.xml missing). -/

def emptyArchive : Archive where
  entries := []
  parsed := none

/-- Package metadata of the single-document archive. -/

def singleOpf : ParsedOpf where
  rootfilePath := "content.opf"
  items := [("c1", "ch1.html")]
  itemrefs := ["c1"]

/-- Archive with a single html document containing the bytes of
"hi". -/

def singleArchive : Archive where
  entries := [("ch1.html", [0x68, 0x69])]
  parsed := some singleOpf

/-- Package metadata of the Scenario D archive. -/

def scenarioDOpf : ParsedOpf where
  rootfilePath := "content.opf"
  items := [("c1", "doc1.html"), ("c2", "doc2.html")]
  itemrefs := ["c1", "c2"]

/-- Scenario D archive: two html documents whose bytes decode to
"Hello" and "World". -/

def scenarioD : Archive where
  entries := [("doc1.html", [0x48, 0x65, 0x6C, 0x6C, 0x6F]),
              ("doc2.html", [0x57, 0x6F, 0x72, 0x6C, 0x64])]
  parsed := some scenarioDOpf

/-- Package metadata naming two entries from the spine. -/

def collisionOpf (n1 n2 : String) : ParsedOpf where
  rootfilePath := ""
  items := [("c1", n1), ("c2", n2)]
  itemrefs := ["c1", "c2"]

/-- Archive whose two entries share a base filename (when instantiated
so), both referenced by the spine. -/

def collisionArchive (n1 n2 : String) (bs1 bs2 : List Nat) : Archive where
  entries := [(n1, bs1), (n2, bs2)]
  parsed := some (collisionOpf n1 n2)

example : collapseNewlines "a\n\n\n\nb".toList = "a\n\nb".toList := by decide

example : clean_text idRefs "a\n \n \nb".toList = "a\n\n\nb".toList := by decide

example : clean_text idRefs "a\n\n\nb".toList = "a\n\nb".toList := by decide

example : noTriple "a\n\n\nb".toList = false := by decide

example : hasWsLine "a\n \nb".toList = true := by decide

example : stripWsLines "a\n \t\nb".toList = "a\n\nb".toList := by decide

theorem splitLines_cons (c : Char) (rest : List Char) :
    splitLines (c :: rest) =
      if c = '\n' then [] :: splitLines rest
      else
        match splitLines rest with
        | [] => [[c]]
        | ln :: more => (c :: ln) :: more := rfl

theorem splitLines_ne_nil (l : List Char) : splitLines l ≠ [] := by
  cases l with
  | nil => simp [splitLines]
  | cons c rest =>
    rw [splitLines_cons]
    by_cases hc : c = '\n'
    · simp [hc]
    · rw [if_neg hc]
      cases splitLines rest <;> simp

theorem splitLines_eq (l : List Char) : ∃ t, splitLines l = firstLine l :: t := by
  induction l with
  | nil => exact ⟨[], rfl⟩
  | cons c rest ih =>
    obtain ⟨t, ht⟩ := ih
    by_cases hc : c = '\n'
    · exact ⟨splitLines rest, by simp [splitLines_cons, firstLine, hc]⟩
    · refine ⟨t, ?_⟩
      rw [splitLines_cons, if_neg hc, ht]
      simp [firstLine, hc]

theorem collapseAux_nil (n : Nat) :
    collapseAux n [] = List.replicate (min n 2) '\n' := rfl

theorem collapseAux_cons (n : Nat) (c : Char) (rest : List Char) :
    collapseAux n (c :: rest) =
      if c = '\n' then collapseAux (n + 1) rest
      else List.replicate (min n 2) '\n' ++ c :: collapseAux 0 rest := rfl

theorem firstLine_collapseAux_pos (l : List Char) :
    ∀ n, 1 ≤ n → firstLine (collapseAux n l) = [] := by
  induction l with
  | nil =>
    intro n hn
    rw [collapseAux_nil]
    have h : min n 2 = 1 ∨ min n 2 = 2 := by omega
    rcases h with h | h <;> simp [h, firstLine]
  | cons c rest ih =>
    intro n hn
    rw [collapseAux_cons]
    by_cases hc : c = '\n'
    · rw [if_pos hc]
      exact ih (n + 1) (by omega)
    · rw [if_neg hc]
      have h : min n 2 = 1 ∨ min n 2 = 2 := by omega
      rcases h with h | h <;> simp [h, firstLine]

theorem firstLine_collapse (l : List Char) :
    firstLine (collapseAux 0 l) = firstLine l := by
  induction l with
  | nil => rfl
  | cons c rest ih =>
    rw [collapseAux_cons]
    by_cases hc : c = '\n'
    · rw [if_pos hc, hc]
      rw [firstLine_collapseAux_pos rest 1 (by omega)]
      simp [firstLine]
    · rw [if_neg hc]
      simp [firstLine, hc, ih]

theorem splitLines_replicate_append (k : Nat) (m : List Char) :
    splitLines (List.replicate k '\n' ++ m) =
      List.replicate k [] ++ splitLines m := by
  induction k with
  | zero => simp
  | succ k ih =>
    rw [List.replicate_succ, List.cons_append, splitLines_cons, if_pos rfl, ih]
    simp [List.replicate_succ]

theorem neLines_cons_empty (L : List (List Char)) :
    neLines ([] :: L) = neLines L := by simp [neLines]

theorem neLines_replicate_append (k : Nat) (L : List (List Char)) :
    neLines (List.replicate k [] ++ L) = neLines L := by
  induction k with
  | zero => simp
  | succ k ih => rw [List.replicate_succ, List.cons_append, neLines_cons_empty, ih]

theorem neLines_collapseAux (l : List Char) :
    ∀ n, neLines (splitLines (collapseAux n l)) = neLines (splitLines l) := by
  induction l with
  | nil =>
    intro n
    rw [collapseAux_nil, show List.replicate (min n 2) '\n' =
      List.replicate (min n 2) '\n' ++ [] from (List.append_nil _).symm,
      splitLines_replicate_append, neLines_replicate_append]
  | cons c rest ih =>
    intro n
    by_cases hc : c = '\n'
    · rw [collapseAux_cons, if_pos hc, ih (n + 1), hc, splitLines_cons, if_pos rfl,
        neLines_cons_empty]
    · obtain ⟨t', ht'⟩ := splitLines_eq (collapseAux 0 rest)
      obtain ⟨t, ht⟩ := splitLines_eq rest
      have key : neLines t' = neLines t := by
        have h0 := ih 0
        rw [ht', ht, firstLine_collapse] at h0
        by_cases hfe : (firstLine rest).isEmpty
        · rw [List.isEmpty_iff] at hfe
          rw [hfe, neLines_cons_empty, neLines_cons_empty] at h0
          exact h0
        · simp only [neLines, List.filter_cons, hfe] at h0 ⊢
          simpa [neLines] using List.tail_eq_of_cons_eq h0
      rw [collapseAux_cons, if_neg hc, splitLines_replicate_append,
        neLines_replicate_append, splitLines_cons, if_neg hc, ht',
        firstLine_collapse, splitLines_cons, if_neg hc, ht]
      simp only [neLines, List.filter_cons]
      have hne : (!(c :: firstLine rest).isEmpty) = true := by simp
      rw [hne]
      simp only [neLines] at key
      rw [key]

theorem any_lineWsOnly_neLines (L : List (List Char)) :
    L.any lineWsOnly = (neLines L).any lineWsOnly := by
  induction L with
  | nil => rfl
  | cons ln t ih =>
    by_cases he : ln.isEmpty
    · rw [List.isEmpty_iff] at he
      subst he
      rw [neLines_cons_empty]
      simp [lineWsOnly, ih]
    · simp only [neLines, List.filter_cons, he, List.any_cons]
      simp only [neLines] at ih
      simp [ih]

theorem hasWsLine_collapse (l : List Char) (n : Nat) :
    hasWsLine (collapseAux n l) = hasWsLine l := by
  unfold hasWsLine
  rw [any_lineWsOnly_neLines, neLines_collapseAux l n, ← any_lineWsOnly_neLines]

theorem joinLines_cons_cons (ln m : List Char) (t : List (List Char)) :
    joinLines (ln :: m :: t) = ln ++ '\n' :: joinLines (m :: t) := rfl

theorem joinLines_cons_head (c : Char) (h : List Char) (t : List (List Char)) :
    joinLines ((c :: h) :: t) = c :: joinLines (h :: t) := by
  cases t with
  | nil => rfl
  | cons m t2 => rw [joinLines_cons_cons, joinLines_cons_cons, List.cons_append]

theorem joinLines_splitLines (l : List Char) : joinLines (splitLines l) = l := by
  induction l with
  | nil => rfl
  | cons c rest ih =>
    by_cases hc : c = '\n'
    · rw [splitLines_cons, if_pos hc]
      obtain ⟨t, ht⟩ := splitLines_eq rest
      rw [ht] at ih ⊢
      rw [joinLines_cons_cons, hc]
      simpa using ih
    · obtain ⟨t, ht⟩ := splitLines_eq rest
      rw [splitLines_cons, if_neg hc, ht]
      rw [ht] at ih
      rw [joinLines_cons_head, ih]

theorem stripWsLines_of_not_hasWsLine (l : List Char) (h : hasWsLine l = false) :
    stripWsLines l = l := by
  unfold stripWsLines
  have hall : ∀ ln ∈ splitLines l, lineWsOnly ln = false := by
    intro ln hln
    by_contra hne
    have : (splitLines l).any lineWsOnly = true :=
      List.any_eq_true.mpr ⟨ln, hln, by simpa using hne⟩
    rw [hasWsLine] at h
    rw [h] at this
    exact Bool.false_ne_true this
  have hmap : ((splitLines l).map fun ln => if lineWsOnly ln then [] else ln) =
      splitLines l := by
    rw [List.map_congr_left (g := id) (fun a ha => by simp [hall a ha])]
    exact List.map_id _
  rw [hmap, joinLines_splitLines]

theorem mem_splitLines_no_newline (l : List Char) :
    ∀ ln ∈ splitLines l, '\n' ∉ ln := by
  induction l with
  | nil =>
    intro ln hln
    simp only [splitLines, List.mem_singleton] at hln
    subst hln; simp
  | cons c rest ih =>
    intro ln hln
    by_cases hc : c = '\n'
    · rw [splitLines_cons, if_pos hc] at hln
      rcases List.mem_cons.mp hln with h | h
      · subst h; simp
      · exact ih ln h
    · obtain ⟨t, ht⟩ := splitLines_eq rest
      rw [splitLines_cons, if_neg hc, ht] at hln
      rcases List.mem_cons.mp hln with h | h
      · subst h
        intro hmem
        rcases List.mem_cons.mp hmem with h2 | h2
        · exact hc h2.symm
        · exact ih (firstLine rest) (by rw [ht]; exact List.mem_cons_self _ _) h2
      · exact ih ln (by rw [ht]; exact List.mem_cons_of_mem _ h)

theorem splitLines_of_no_newline (ln : List Char) (h : '\n' ∉ ln) :
    splitLines ln = [ln] := by
  induction ln with
  | nil => rfl
  | cons c r ih =>
    have hc : ¬ c = '\n' := fun hh => h (by rw [hh]; exact List.mem_cons_self _ _)
    rw [splitLines_cons, if_neg hc, ih (fun hm => h (List.mem_cons_of_mem _ hm))]

theorem splitLines_append_newline (ln rest : List Char) (h : '\n' ∉ ln) :
    splitLines (ln ++ '\n' :: rest) = ln :: splitLines rest := by
  induction ln with
  | nil => rw [List.nil_append, splitLines_cons, if_pos rfl]
  | cons c r ih =>
    have hc : ¬ c = '\n' := fun hh => h (by rw [hh]; exact List.mem_cons_self _ _)
    rw [List.cons_append, splitLines_cons, if_neg hc,
      ih (fun hm => h (List.mem_cons_of_mem _ hm))]

theorem splitLines_joinLines (L : List (List Char)) (h0 : L ≠ [])
    (h : ∀ ln ∈ L, '\n' ∉ ln) : splitLines (joinLines L) = L := by
  induction L with
  | nil => exact absurd rfl h0
  | cons ln t ih =>
    cases t with
    | nil => exact splitLines_of_no_newline ln (h ln (List.mem_cons_self _ _))
    | cons m t2 =>
      rw [joinLines_cons_cons,
        splitLines_append_newline _ _ (h ln (List.mem_cons_self _ _)),
        ih (by simp) (fun x hx => h x (List.mem_cons_of_mem _ hx))]

theorem splitLines_stripWsLines (l : List Char) :
    splitLines (stripWsLines l) =
      (splitLines l).map fun ln => if lineWsOnly ln then [] else ln := by
  unfold stripWsLines
  apply splitLines_joinLines
  · intro hmap
    exact splitLines_ne_nil l (List.map_eq_nil_iff.mp hmap)
  · intro ln hln
    obtain ⟨src, hsrc, hmap⟩ := List.mem_map.mp hln
    by_cases hws : lineWsOnly src
    · rw [if_pos hws] at hmap; subst hmap; simp
    · rw [if_neg hws] at hmap; subst hmap
      exact mem_splitLines_no_newline l src hsrc

theorem hasWsLine_stripWsLines (l : List Char) :
    hasWsLine (stripWsLines l) = false := by
  unfold hasWsLine
  rw [splitLines_stripWsLines]
  rw [List.any_eq_false]
  intro x hx
  obtain ⟨src, _, hmap⟩ := List.mem_map.mp hx
  by_cases hws : lineWsOnly src
  · rw [if_pos hws] at hmap; subst hmap; simp [lineWsOnly]
  · rw [if_neg hws] at hmap; subst hmap; simp [hws]

theorem mem_collapseAux (a : Char) (l : List Char) :
    ∀ n, a ∈ collapseAux n l → a = '\n' ∨ a ∈ l := by
  induction l with
  | nil =>
    intro n hmem
    rw [collapseAux_nil] at hmem
    exact Or.inl (List.eq_of_mem_replicate hmem)
  | cons c rest ih =>
    intro n hmem
    by_cases hc : c = '\n'
    · rw [collapseAux_cons, if_pos hc] at hmem
      rcases ih (n + 1) hmem with h | h
      · exact Or.inl h
      · exact Or.inr (List.mem_cons_of_mem _ h)
    · rw [collapseAux_cons, if_neg hc] at hmem
      rcases List.mem_append.mp hmem with h | h
      · exact Or.inl (List.eq_of_mem_replicate h)
      · rcases List.mem_cons.mp h with h2 | h2
        · exact Or.inr (by rw [h2]; exact List.mem_cons_self _ _)
        · rcases ih 0 h2 with h3 | h3
          · exact Or.inl h3
          · exact Or.inr (List.mem_cons_of_mem _ h3)

theorem noTriple_cons_cons_cons (c c2 c3 : Char) (t : List Char) :
    noTriple (c :: c2 :: c3 :: t) =
      if c = '\n' ∧ c2 = '\n' ∧ c3 = '\n' then false
      else noTriple (c2 :: c3 :: t) := rfl

theorem noTriple_tail (c : Char) (l : List Char) (h : noTriple (c :: l) = true) :
    noTriple l = true := by
  cases l with
  | nil => rfl
  | cons a m =>
    cases m with
    | nil => rfl
    | cons b t =>
      rw [noTriple_cons_cons_cons] at h
      by_cases hcond : c = '\n' ∧ a = '\n' ∧ b = '\n'
      · rw [if_pos hcond] at h; exact absurd h (by simp)
      · rw [if_neg hcond] at h; exact h

theorem noTriple_cons_of (c : Char) (m : List Char) (hc : ¬ c = '\n')
    (hm : noTriple m = true) : noTriple (c :: m) = true := by
  cases m with
  | nil => rfl
  | cons a t =>
    cases t with
    | nil => rfl
    | cons b t2 =>
      rw [noTriple_cons_cons_cons, if_neg (by tauto)]
      exact hm

theorem noTriple_nl_cons (c : Char) (X : List Char) (hc : ¬ c = '\n')
    (h : noTriple (c :: X) = true) : noTriple ('\n' :: c :: X) = true := by
  cases X with
  | nil => rfl
  | cons x t =>
    rw [noTriple_cons_cons_cons, if_neg (by tauto)]
    exact h

theorem noTriple_nl_nl_cons (c : Char) (X : List Char) (hc : ¬ c = '\n')
    (h : noTriple (c :: X) = true) : noTriple ('\n' :: '\n' :: c :: X) = true := by
  rw [noTriple_cons_cons_cons, if_neg (by tauto)]
  exact noTriple_nl_cons c X hc h

theorem noTriple_collapseAux (l : List Char) :
    ∀ n, noTriple (collapseAux n l) = true := by
  induction l with
  | nil =>
    intro n
    rw [collapseAux_nil]
    have h : min n 2 = 0 ∨ min n 2 = 1 ∨ min n 2 = 2 := by omega
    rcases h with h | h | h <;> rw [h] <;> rfl
  | cons c rest ih =>
    intro n
    by_cases hc : c = '\n'
    · rw [collapseAux_cons, if_pos hc]; exact ih (n + 1)
    · rw [collapseAux_cons, if_neg hc]
      have hbase := noTriple_cons_of c _ hc (ih 0)
      have h : min n 2 = 0 ∨ min n 2 = 1 ∨ min n 2 = 2 := by omega
      rcases h with h | h | h <;> rw [h]
      · simpa using hbase
      · simpa using noTriple_nl_cons c _ hc hbase
      · simpa using noTriple_nl_nl_cons c _ hc hbase

theorem collapseAux_id_of_noTriple (l : List Char) :
    (noTriple l = true → collapseAux 0 l = l) ∧
    (noTriple ('\n' :: l) = true → collapseAux 1 l = '\n' :: l) ∧
    (noTriple ('\n' :: '\n' :: l) = true → collapseAux 2 l = '\n' :: '\n' :: l) := by
  induction l with
  | nil => exact ⟨fun _ => rfl, fun _ => rfl, fun _ => rfl⟩
  | cons c rest ih =>
    obtain ⟨ih1, ih2, ih3⟩ := ih
    refine ⟨?_, ?_, ?_⟩
    · intro h
      by_cases hc : c = '\n'
      · subst hc
        rw [collapseAux_cons, if_pos rfl]
        exact ih2 h
      · rw [collapseAux_cons, if_neg hc, ih1 (noTriple_tail c rest h)]
        rfl
    · intro h
      by_cases hc : c = '\n'
      · subst hc
        rw [collapseAux_cons, if_pos rfl]
        exact ih3 h
      · rw [collapseAux_cons, if_neg hc,
          ih1 (noTriple_tail _ _ (noTriple_tail _ _ h))]
        rfl
    · intro h
      by_cases hc : c = '\n'
      · subst hc
        rw [noTriple_cons_cons_cons, if_pos ⟨rfl, rfl, rfl⟩] at h
        exact absurd h (by simp)
      · rw [collapseAux_cons, if_neg hc,
          ih1 (noTriple_tail _ _ (noTriple_tail _ _ (noTriple_tail _ _ h)))]
        rfl

theorem collapseNewlines_idem (l : List Char) :
    collapseNewlines (collapseNewlines l) = collapseNewlines l :=
  (collapseAux_id_of_noTriple (collapseNewlines l)).1 (noTriple_collapseAux l 0)

theorem unescape_of_no_amp (subRefs : List Char → List Char) (l : List Char)
    (h : '&' ∉ l) : unescape subRefs l = l := if_neg h

/-- C3 (counterexample): clean_text is not idempotent.  On the input
"a\n \n \nb" the blank-line removal, which runs after the
newline-collapsing step, creates a new run of three newlines; a second
application collapses that run, so the two results differ. -/
theorem clean_text_not_idempotent :
    clean_text idRefs (clean_text idRefs "a\n \n \nb".toList) ≠
      clean_text idRefs "a\n \n \nb".toList := by decide

/-- C3 (amended): clean_text is idempotent on every text that contains
no ampersand (so the html.unescape stage is the identity) and no line
consisting only of horizontal whitespace; in general idempotence fails,
as the counterexample shows. -/
theorem clean_text_idempotent_amended (subRefs : List Char → List Char)
    (l : List Char) (h1 : '&' ∉ l) (h2 : hasWsLine l = false) :
    clean_text subRefs (clean_text subRefs l) = clean_text subRefs l := by
  have hws : hasWsLine (collapseNewlines l) = false := by
    show hasWsLine (collapseAux 0 l) = false
    rw [hasWsLine_collapse l 0]; exact h2
  have hclean : clean_text subRefs l = collapseNewlines l := by
    unfold clean_text
    rw [unescape_of_no_amp subRefs l h1]
    exact stripWsLines_of_not_hasWsLine _ hws
  have hamp : '&' ∉ collapseNewlines l := by
    intro hmem
    rcases mem_collapseAux '&' l 0 hmem with h | h
    · exact absurd h (by decide)
    · exact h1 h
  rw [hclean]
  unfold clean_text
  rw [unescape_of_no_amp subRefs _ hamp, collapseNewlines_idem]
  exact stripWsLines_of_not_hasWsLine _ hws

/-- C3 (amended, witness): a concrete ampersand-free text with no
whitespace-only line on which clean_text is idempotent. -/
theorem clean_text_idempotent_amended_witness :
    ('&' ∉ "hi\n\n there".toList ∧ hasWsLine "hi\n\n there".toList = false) ∧
      clean_text idRefs (clean_text idRefs "hi\n\n there".toList) =
        clean_text idRefs "hi\n\n there".toList :=
  ⟨⟨by decide, by decide⟩,
    clean_text_idempotent_amended idRefs _ (by decide) (by decide)⟩

/-- C7 (counterexample): on the input "a\n \n \nb" the output of
clean_text is "a\n\n\nb", which contains a run of three consecutive
newlines, refuting the no-triple-newline half of the claim. -/
theorem clean_text_triple_newline_output :
    noTriple (clean_text idRefs "a\n \n \nb".toList) = false ∧
      clean_text idRefs "a\n \n \nb".toList = "a\n\n\nb".toList :=
  ⟨by decide, by decide⟩

example : utf8Decode? [0x68, 0x69] = some "hi".toList := by decide

example : utf8Decode? [0xFF] = none := by decide

example : utf8Decode? [0xC0, 0xAF] = none := by decide

example : utf8Decode? [0xED, 0xA0, 0x80] = none := by decide

example : utf8Decode? [0xE4, 0xB8, 0xAD] = some ['中'] := by decide

/-- C4: safe_decode is a total function on arbitrary byte sequences:
given total models of the external codecs it always returns a text
(its result type has no failure case), and the result follows exactly
the spec's fallback chain — strict UTF-8 first, then strict UTF-16,
then the detected encoding (or utf-8 when the detector has no guess)
decoded with replacement of unmappable sequences.  In particular no
byte sequence, valid UTF-8 or not, is rejected. -/
theorem safe_decode_total_chain (utf16dec : List Nat → Option String)
    (detect : List Nat → Option String)
    (decodeReplace : String → List Nat → String) (data : List Nat) :
    safe_decode utf16dec detect decodeReplace data =
      specDecodeChain utf16dec detect decodeReplace data := by
  unfold safe_decode specDecodeChain
  cases utf8Decode? data <;> cases utf16dec data <;> simp [Option.or]

example : basename "OEBPS/Text/ch1.xhtml" = "ch1.xhtml" := by decide

example : dirname "OEBPS/content.opf" = "OEBPS" := by decide

example : dirname "content.opf" = "" := by decide

example : splitext "book.epub" = ("book", ".epub") := by decide

example : splitext ".hidden" = (".hidden", "") := by decide

example : pathJoin "out" "ch1.txt" = "out/ch1.txt" := by decide

theorem spineLoop_go (manifest : List (String × String)) :
    ∀ (itemrefs : List String) (acc : List String),
      itemrefs.foldl (fun acc idref =>
        match dictGet? manifest idref with
        | some href => acc ++ [href]
        | none => acc) acc = acc ++ specReadingOrder manifest itemrefs := by
  intro refs
  induction refs with
  | nil => intro acc; simp [specReadingOrder]
  | cons r rest ih =>
    intro acc
    rw [List.foldl_cons]
    cases h : dictGet? manifest r with
    | none =>
      simp only [h]
      rw [ih acc]
      simp [specReadingOrder, List.filter_cons, h]
    | some href =>
      simp only [h]
      rw [ih (acc ++ [href])]
      simp [specReadingOrder, List.filter_cons, h]

/-- C1: for an archive whose metadata parses, the reading order
computed by get_spine_order equals the spine itemref sequence with
entries whose idref is absent from the manifest mapping removed,
relative order preserved, each resolved to its manifest href. -/
theorem get_spine_order_spec (p : ParsedOpf) (arch : Archive)
    (h : arch.parsed = some p) :
    get_spine_order arch =
      specReadingOrder (buildManifest (opfDirOf p.rootfilePath) p.items)
        p.itemrefs := by
  unfold get_spine_order
  rw [h]
  simpa [spineLoop] using
    spineLoop_go (buildManifest (opfDirOf p.rootfilePath) p.items) p.itemrefs []

example : get_spine_order sampleArchive = ["OEBPS/c1.xhtml", "OEBPS/c2.xhtml"] := by
  decide

/-- C1 (witness): the sample archive parses, and its computed reading
order matches the specified filter-and-resolve form. -/
theorem get_spine_order_spec_witness :
    sampleArchive.parsed = some sampleOpf ∧
      get_spine_order sampleArchive =
        specReadingOrder (buildManifest (opfDirOf sampleOpf.rootfilePath)
          sampleOpf.items) sampleOpf.itemrefs :=
  ⟨rfl, get_spine_order_spec sampleOpf sampleArchive rfl⟩

theorem foldl_dictInsert {α : Type} (f : α → String × String) :
    ∀ (l : List α) (acc : List (String × String)),
      l.foldl (fun m x => dictInsert m (f x).1 (f x).2) acc =
        (l.map f).reverse ++ acc := by
  intro l
  induction l with
  | nil => intro acc; simp
  | cons x t ih =>
    intro acc
    rw [List.foldl_cons, ih]
    simp [dictInsert]

theorem buildManifest_eq (opfDir : String) (items : List (String × String)) :
    buildManifest opfDir items =
      (items.map fun it => (it.1, itemHref opfDir it.2)).reverse := by
  have h := foldl_dictInsert (fun it : String × String =>
    (it.1, itemHref opfDir it.2)) items []
  simpa [buildManifest] using h

/-- C9: when two manifest item elements declare the same id, the
manifest mapping records the resolved href of the last one in document
order (last write wins), and the construction is a total function, so
resolution proceeds without error. -/
theorem buildManifest_last_write_wins (opfDir : String)
    (pre mid post : List (String × String)) (i h1 h2 : String)
    (hpost : ∀ it ∈ post, it.1 ≠ i) :
    dictGet? (buildManifest opfDir
        (pre ++ [(i, h1)] ++ mid ++ [(i, h2)] ++ post)) i =
      some (itemHref opfDir h2) := by
  rw [buildManifest_eq]
  unfold dictGet?
  have hnone : ((post.map fun it => (it.1, itemHref opfDir it.2)).reverse.find?
      fun p => p.1 == i) = none := by
    rw [List.find?_eq_none]
    intro x hx
    rw [List.mem_reverse] at hx
    obtain ⟨it, hit, hxeq⟩ := List.mem_map.mp hx
    subst hxeq
    simp [hpost it hit]
  simp only [List.map_append, List.reverse_append, List.map_cons, List.map_nil,
    List.reverse_cons, List.reverse_nil, List.nil_append, List.cons_append,
    List.append_assoc]
  rw [List.find?_append, hnone]
  simp

/-- C9 (witness): a concrete manifest with a duplicated id resolves to
the second href. -/
theorem buildManifest_last_write_wins_witness :
    (∀ it ∈ ([] : List (String × String)), it.1 ≠ "a") ∧
      dictGet? (buildManifest ""
          ([] ++ [("a", "one.html")] ++ [] ++ [("a", "two.html")] ++ [])) "a" =
        some (itemHref "" "two.html") :=
  ⟨by simp, buildManifest_last_write_wins "" [] [] [] "a" "one.html" "two.html"
    (by simp)⟩

theorem buildFileMap_eq (names : List String) :
    buildFileMap names =
      (names.map fun n => (strLower (normalize_path n), n)).reverse := by
  have h := foldl_dictInsert (fun n : String =>
    (strLower (normalize_path n), n)) names []
  simpa [buildFileMap] using h

/-- C8: a spine href whose normalized lowercased form agrees with that
of an archive entry (the two differ only in letter case, slash
direction, or leading slashes) resolves to that entry, and the value
returned — later used for the actual archive read — is the entry's
original as-listed name, not the normalized lookup key. -/
theorem resolveItem_case_insensitive (names : List String) (entry href : String)
    (hmem : entry ∈ names)
    (hkey : strLower (normalize_path href) = strLower (normalize_path entry))
    (huniq : ∀ other ∈ names,
      strLower (normalize_path other) = strLower (normalize_path entry) →
      other = entry) :
    resolveItem (buildFileMap names) href = some entry := by
  unfold resolveItem dictGet?
  rw [buildFileMap_eq, hkey]
  have hex : ∃ x ∈ (names.map fun n => (strLower (normalize_path n), n)).reverse,
      (fun p : String × String => p.1 == strLower (normalize_path entry)) x := by
    refine ⟨(strLower (normalize_path entry), entry), ?_, by simp⟩
    rw [List.mem_reverse]
    exact List.mem_map.mpr ⟨entry, hmem, rfl⟩
  have hsome := List.find?_isSome.mpr hex
  cases hfind : (names.map fun n => (strLower (normalize_path n), n)).reverse.find?
      fun p => p.1 == strLower (normalize_path entry) with
  | none => rw [hfind] at hsome; simp at hsome
  | some m =>
    have hmm : m ∈ (names.map fun n => (strLower (normalize_path n), n)).reverse :=
      List.mem_of_find?_eq_some hfind
    have hpred := List.find?_some hfind
    rw [List.mem_reverse] at hmm
    obtain ⟨n, hn, hneq⟩ := List.mem_map.mp hmm
    subst hneq
    simp only [beq_iff_eq] at hpred
    have : n = entry := huniq n hn hpred
    subst this
    simp

/-- C8 (witness): the href Text/Chap1.HTML resolves against the entry
text/chap1.html, returning the entry's original name. -/
theorem resolveItem_case_insensitive_witness :
    ("text/chap1.html" ∈ ["text/chap1.html", "mimetype"] ∧
      strLower (normalize_path "Text/Chap1.HTML") =
        strLower (normalize_path "text/chap1.html") ∧
      (∀ other ∈ ["text/chap1.html", "mimetype"],
        strLower (normalize_path other) =
          strLower (normalize_path "text/chap1.html") →
        other = "text/chap1.html")) ∧
      resolveItem (buildFileMap ["text/chap1.html", "mimetype"])
          "Text/Chap1.HTML" = some "text/chap1.html" :=
  ⟨⟨by decide, by decide, by decide⟩,
    resolveItem_case_insensitive ["text/chap1.html", "mimetype"]
      "text/chap1.html" "Text/Chap1.HTML" (by decide) (by decide) (by decide)⟩

/-- C2 (counterexample): on an archive whose resolution yields an
empty reading order, convert does create the output directory — the
os.makedirs call at line 104 runs before the spine check at line 109 —
and it produces no structured NoContent failure value, merely printing
an error and returning None. -/
theorem convert_empty_order_creates_dir :
    (convert_epub_to_txt emptyArchive (fun _ => none) (fun _ => none)
        (fun _ _ => "") (fun s => s) idRefs 0 "book.epub" (some "out")
        false).dirsCreated = ["out"] ∧
      (convert_epub_to_txt emptyArchive (fun _ => none) (fun _ => none)
        (fun _ _ => "") (fun s => s) idRefs 0 "book.epub" (some "out")
        false).ret = none := ⟨rfl, rfl⟩

/-- C2 (amended): when resolution yields an empty reading order,
convert writes no files, processes nothing, logs the error and returns
None; however the output directory has already been created before the
check, and the failure is signalled only through the log channel and
the None return value, not by a structured NoContent error. -/
theorem convert_empty_order_behaviour (arch : Archive)
    (utf16dec : List Nat → Option String) (detect : List Nat → Option String)
    (decodeReplace : String → List Nat → String) (getText : String → String)
    (subRefs : List Char → List Char) (elapsed : Nat) (epubPath : String)
    (outputDirArg : Option String) (merge : Bool)
    (h : get_spine_order arch = []) :
    (convert_epub_to_txt arch utf16dec detect decodeReplace getText subRefs
        elapsed epubPath outputDirArg merge).writes = [] ∧
      (convert_epub_to_txt arch utf16dec detect decodeReplace getText subRefs
        elapsed epubPath outputDirArg merge).processed = [] ∧
      (convert_epub_to_txt arch utf16dec detect decodeReplace getText subRefs
        elapsed epubPath outputDirArg merge).ret = none ∧
      (convert_epub_to_txt arch utf16dec detect decodeReplace getText subRefs
        elapsed epubPath outputDirArg merge).logs =
        [LogEvent.readingSpine epubPath, LogEvent.spineError] ∧
      (convert_epub_to_txt arch utf16dec detect decodeReplace getText subRefs
        elapsed epubPath outputDirArg merge).dirsCreated =
        [outputDirArg.getD (splitext (basename epubPath)).1] := by
  cases outputDirArg <;> simp [convert_epub_to_txt, h]

/-- C2 (amended, witness): concrete empty-order run. -/
theorem convert_empty_order_behaviour_witness :
    get_spine_order emptyArchive = [] ∧
      ((convert_epub_to_txt emptyArchive (fun _ => none) (fun _ => none)
          (fun _ _ => "") (fun s => s) idRefs 0 "book.epub" (some "out")
          false).writes = [] ∧
        (convert_epub_to_txt emptyArchive (fun _ => none) (fun _ => none)
          (fun _ _ => "") (fun s => s) idRefs 0 "book.epub" (some "out")
          false).processed = [] ∧
        (convert_epub_to_txt emptyArchive (fun _ => none) (fun _ => none)
          (fun _ _ => "") (fun s => s) idRefs 0 "book.epub" (some "out")
          false).ret = none ∧
        (convert_epub_to_txt emptyArchive (fun _ => none) (fun _ => none)
          (fun _ _ => "") (fun s => s) idRefs 0 "book.epub" (some "out")
          false).logs =
          [LogEvent.readingSpine "book.epub", LogEvent.spineError] ∧
        (convert_epub_to_txt emptyArchive (fun _ => none) (fun _ => none)
          (fun _ _ => "") (fun s => s) idRefs 0 "book.epub" (some "out")
          false).dirsCreated =
          [(some "out").getD (splitext (basename "book.epub")).1]) :=
  ⟨rfl, convert_empty_order_behaviour emptyArchive _ _ _ _ _ 0 "book.epub"
    (some "out") false rfl⟩

/-- C5 (counterexample): a successful run — here one document
successfully processed — still returns None: convert never returns a
ConversionStats value; the statistics are only printed. -/
theorem convert_returns_none_on_success :
    (convert_epub_to_txt singleArchive (fun _ => none) (fun _ => none)
        (fun _ _ => "") (fun s => s) idRefs 3 "book.epub" (some "out")
        false).processed.length = 1 ∧
      (convert_epub_to_txt singleArchive (fun _ => none) (fun _ => none)
        (fun _ _ => "") (fun s => s) idRefs 3 "book.epub" (some "out")
        false).ret = none := ⟨by decide, rfl⟩

theorem processItem_totalSize (arch : Archive) (fileMap : List (String × String))
    (utf16dec : List Nat → Option String) (detect : List Nat → Option String)
    (decodeReplace : String → List Nat → String) (getText : String → String)
    (subRefs : List Char → List Char) (outputDir : String)
    (st : RunState) (itemPath : String)
    (h : st.totalSize = (st.processed.map fun f => f.2.1).sum) :
    (processItem arch fileMap utf16dec detect decodeReplace getText subRefs
        outputDir st itemPath).totalSize =
      ((processItem arch fileMap utf16dec detect decodeReplace getText subRefs
        outputDir st itemPath).processed.map fun f => f.2.1).sum := by
  unfold processItem
  cases hrp : resolveItem fileMap itemPath with
  | none => simpa [hrp] using h
  | some actualPath =>
    cases hdoc : isDocPath (strLower actualPath) with
    | false => simpa [hrp, hdoc] using h
    | true =>
      cases hre : readEntry arch actualPath with
      | none => simpa [hrp, hdoc, hre] using h
      | some htmlData =>
        simp [hrp, hdoc, hre, h, List.map_append, List.sum_append]

theorem runLoop_totalSize (arch : Archive) (fileMap : List (String × String))
    (utf16dec : List Nat → Option String) (detect : List Nat → Option String)
    (decodeReplace : String → List Nat → String) (getText : String → String)
    (subRefs : List Char → List Char) (outputDir : String) :
    ∀ (items : List String) (st : RunState),
      st.totalSize = (st.processed.map fun f => f.2.1).sum →
      (items.foldl (processItem arch fileMap utf16dec detect decodeReplace
          getText subRefs outputDir) st).totalSize =
        ((items.foldl (processItem arch fileMap utf16dec detect decodeReplace
          getText subRefs outputDir) st).processed.map fun f => f.2.1).sum := by
  intro items
  induction items with
  | nil => intro st h; simpa using h
  | cons i rest ih =>
    intro st h
    rw [List.foldl_cons]
    exact ih _ (processItem_totalSize arch fileMap utf16dec detect decodeReplace
      getText subRefs outputDir st i h)

theorem convert_nonempty_eq (arch : Archive)
    (utf16dec : List Nat → Option String) (detect : List Nat → Option String)
    (decodeReplace : String → List Nat → String) (getText : String → String)
    (subRefs : List Char → List Char) (elapsed : Nat) (epubPath : String)
    (outputDirArg : Option String) (merge : Bool)
    (hne : (get_spine_order arch).isEmpty = false) :
    convert_epub_to_txt arch utf16dec detect decodeReplace getText subRefs
        elapsed epubPath outputDirArg merge =
      (let outputDir := match outputDirArg with
        | none => (splitext (basename epubPath)).1
        | some d => d
      let st := (get_spine_order arch).foldl
        (processItem arch (buildFileMap (arch.entries.map fun e => e.1))
          utf16dec detect decodeReplace getText subRefs outputDir)
        { writes := [], logs := [], processed := [], totalSize := 0 }
      let mergedPath := pathJoin outputDir
        ((splitext (basename epubPath)).1 ++ "_merged.txt")
      { dirsCreated := [outputDir]
        writes := st.writes ++
          (if merge ∧ ¬ st.processed.isEmpty then
            [(mergedPath, mergedContent st.processed)] else [])
        logs := [LogEvent.readingSpine epubPath,
            LogEvent.processingCount (get_spine_order arch).length] ++
          st.logs ++
          (if merge ∧ ¬ st.processed.isEmpty then
            [LogEvent.mergedCreated mergedPath] else []) ++
          [LogEvent.statsReport st.processed.length st.totalSize] ++
          (if ¬ st.processed.isEmpty then
            [LogEvent.avgReport (st.totalSize / st.processed.length)] else []) ++
          [LogEvent.timeElapsed elapsed]
        processed := st.processed
        totalSize := st.totalSize
        ret := none }) := by
  unfold convert_epub_to_txt
  dsimp only
  rw [if_neg (by simp [hne])]

/-- C5 (amended): on every run that passes the empty-order check,
convert computes the statistics — the count of successfully processed
items, the sum of their output byte sizes, and the (abstracted)
wall-clock elapsed time — and reports them on the log/print channel;
but it returns None, not a ConversionStats value. -/
theorem convert_reports_stats (arch : Archive)
    (utf16dec : List Nat → Option String) (detect : List Nat → Option String)
    (decodeReplace : String → List Nat → String) (getText : String → String)
    (subRefs : List Char → List Char) (elapsed : Nat) (epubPath : String)
    (outputDirArg : Option String) (merge : Bool)
    (h : get_spine_order arch ≠ []) :
    (convert_epub_to_txt arch utf16dec detect decodeReplace getText subRefs
        elapsed epubPath outputDirArg merge).totalSize =
      ((convert_epub_to_txt arch utf16dec detect decodeReplace getText subRefs
        elapsed epubPath outputDirArg merge).processed.map fun f => f.2.1).sum ∧
      LogEvent.statsReport
        (convert_epub_to_txt arch utf16dec detect decodeReplace getText subRefs
          elapsed epubPath outputDirArg merge).processed.length
        (convert_epub_to_txt arch utf16dec detect decodeReplace getText subRefs
          elapsed epubPath outputDirArg merge).totalSize ∈
        (convert_epub_to_txt arch utf16dec detect decodeReplace getText subRefs
          elapsed epubPath outputDirArg merge).logs ∧
      LogEvent.timeElapsed elapsed ∈
        (convert_epub_to_txt arch utf16dec detect decodeReplace getText subRefs
          elapsed epubPath outputDirArg merge).logs ∧
      (convert_epub_to_txt arch utf16dec detect decodeReplace getText subRefs
        elapsed epubPath outputDirArg merge).ret = none := by
  have hne : (get_spine_order arch).isEmpty = false := by
    cases hgs : get_spine_order arch with
    | nil => exact absurd hgs h
    | cons a t => rfl
  rw [convert_nonempty_eq arch utf16dec detect decodeReplace getText subRefs
    elapsed epubPath outputDirArg merge hne]
  refine ⟨?_, ?_, ?_, ?_⟩
  · exact runLoop_totalSize arch _ utf16dec detect decodeReplace getText subRefs _
      (get_spine_order arch) _ rfl
  · simp
  · simp
  · rfl

/-- C5 (amended, witness): a successful single-document run reports
its statistics on the log channel and returns None. -/
theorem convert_reports_stats_witness :
    get_spine_order singleArchive ≠ [] ∧
      ((convert_epub_to_txt singleArchive (fun _ => none) (fun _ => none)
          (fun _ _ => "") (fun s => s) idRefs 3 "book.epub" (some "out")
          false).totalSize =
        ((convert_epub_to_txt singleArchive (fun _ => none) (fun _ => none)
          (fun _ _ => "") (fun s => s) idRefs 3 "book.epub" (some "out")
          false).processed.map fun f => f.2.1).sum ∧
        LogEvent.statsReport
          (convert_epub_to_txt singleArchive (fun _ => none) (fun _ => none)
            (fun _ _ => "") (fun s => s) idRefs 3 "book.epub" (some "out")
            false).processed.length
          (convert_epub_to_txt singleArchive (fun _ => none) (fun _ => none)
            (fun _ _ => "") (fun s => s) idRefs 3 "book.epub" (some "out")
            false).totalSize ∈
          (convert_epub_to_txt singleArchive (fun _ => none) (fun _ => none)
            (fun _ _ => "") (fun s => s) idRefs 3 "book.epub" (some "out")
            false).logs ∧
        LogEvent.timeElapsed 3 ∈
          (convert_epub_to_txt singleArchive (fun _ => none) (fun _ => none)
            (fun _ _ => "") (fun s => s) idRefs 3 "book.epub" (some "out")
            false).logs ∧
        (convert_epub_to_txt singleArchive (fun _ => none) (fun _ => none)
          (fun _ _ => "") (fun s => s) idRefs 3 "book.epub" (some "out")
          false).ret = none) :=
  ⟨by decide, convert_reports_stats singleArchive _ _ _ _ _ 3 "book.epub"
    (some "out") false (by decide)⟩

theorem mergedContent_spec_pair (files : List (String × Nat × String)) :
    mergedContent files = specMergedContent files ∧
      mergedRest files =
        if files.isEmpty then "" else "\n\n" ++ specMergedContent files := by
  induction files with
  | nil => exact ⟨rfl, rfl⟩
  | cons f rest ih =>
    obtain ⟨ih1, ih2⟩ := ih
    constructor
    · cases rest with
      | nil =>
        simp [mergedContent, mergedRest, specMergedContent, joinSections]
      | cons f2 rest2 =>
        rw [show mergedContent (f :: f2 :: rest2) =
          "---" ++ (splitext f.1).1 ++ "---\n\n" ++ f.2.2 ++
            mergedRest (f2 :: rest2) from rfl, ih2]
        simp [specMergedContent, joinSections, String.append_assoc]
    · cases rest with
      | nil =>
        simp [mergedRest, specMergedContent, joinSections]
        simp [← String.append_assoc]
      | cons f2 rest2 =>
        rw [show mergedRest (f :: f2 :: rest2) =
          "\n\n" ++ "---" ++ (splitext f.1).1 ++ "---\n\n" ++ f.2.2 ++
            mergedRest (f2 :: rest2) from rfl, ih2]
        simp [specMergedContent, joinSections, String.append_assoc]
        simp [← String.append_assoc]

theorem mergedContent_eq_spec (files : List (String × Nat × String)) :
    mergedContent files = specMergedContent files :=
  (mergedContent_spec_pair files).1

theorem getLast?_append_singleton {α : Type} (l : List α) (a : α) :
    (l ++ [a]).getLast? = some a := by
  rw [List.getLast?_append_cons]; rfl

/-- C6: with merge enabled and at least one successfully processed
document, the last file convert writes is the merged file; its content
is the successful documents' sections in reading order, each a dashed
base-name header line, a blank line, then the document's text, with
sections joined by exactly one blank line and nothing before the first
header. -/
theorem convert_merged_layout (arch : Archive)
    (utf16dec : List Nat → Option String) (detect : List Nat → Option String)
    (decodeReplace : String → List Nat → String) (getText : String → String)
    (subRefs : List Char → List Char) (elapsed : Nat) (epubPath : String)
    (outputDirArg : Option String)
    (h : (convert_epub_to_txt arch utf16dec detect decodeReplace getText
      subRefs elapsed epubPath outputDirArg true).processed ≠ []) :
    (convert_epub_to_txt arch utf16dec detect decodeReplace getText subRefs
        elapsed epubPath outputDirArg true).writes.getLast? =
      some (pathJoin (outputDirArg.getD (splitext (basename epubPath)).1)
          ((splitext (basename epubPath)).1 ++ "_merged.txt"),
        specMergedContent (convert_epub_to_txt arch utf16dec detect
          decodeReplace getText subRefs elapsed epubPath outputDirArg
          true).processed) := by
  have hne : (get_spine_order arch).isEmpty = false := by
    cases hgs : get_spine_order arch with
    | nil =>
      have hp : (convert_epub_to_txt arch utf16dec detect decodeReplace getText
          subRefs elapsed epubPath outputDirArg true).processed = [] := by
        simp [convert_epub_to_txt, hgs]
      exact absurd hp h
    | cons a t => rfl
  cases outputDirArg <;>
    (rw [convert_nonempty_eq arch utf16dec detect decodeReplace getText subRefs
        elapsed epubPath _ true hne] at h ⊢
     dsimp only at h ⊢
     rw [if_pos ⟨rfl, fun hie => h (List.isEmpty_iff.mp hie)⟩,
       getLast?_append_singleton, mergedContent_eq_spec]
     rfl)

/-- C6 (witness): Scenario D of the spec — two processed documents
"Hello" and "World"; the merged content is exactly
---doc1---, blank line, Hello, blank line, ---doc2---, blank line,
World, and the merged file is the last write of the run. -/
theorem convert_merged_layout_witness :
    ((convert_epub_to_txt scenarioD (fun _ => none) (fun _ => none)
        (fun _ _ => "") (fun s => s) idRefs 0 "book.epub" (some "out")
        true).processed ≠ [] ∧
      specMergedContent (convert_epub_to_txt scenarioD (fun _ => none)
        (fun _ => none) (fun _ _ => "") (fun s => s) idRefs 0 "book.epub"
        (some "out") true).processed =
        "---doc1---\n\nHello\n\n---doc2---\n\nWorld") ∧
      (convert_epub_to_txt scenarioD (fun _ => none) (fun _ => none)
          (fun _ _ => "") (fun s => s) idRefs 0 "book.epub" (some "out")
          true).writes.getLast? =
        some (pathJoin ((some "out").getD (splitext (basename "book.epub")).1)
            ((splitext (basename "book.epub")).1 ++ "_merged.txt"),
          specMergedContent (convert_epub_to_txt scenarioD (fun _ => none)
            (fun _ => none) (fun _ _ => "") (fun s => s) idRefs 0 "book.epub"
            (some "out") true).processed) :=
  ⟨⟨by decide, by decide⟩,
    convert_merged_layout scenarioD _ _ _ _ _ 0 "book.epub" (some "out")
      (by decide)⟩

theorem dictGet?_cons (k v key : String) (m : List (String × String)) :
    dictGet? ((k, v) :: m) key = if k = key then some v else dictGet? m key := by
  by_cases h : k = key
  · rw [if_pos h]
    unfold dictGet?
    rw [List.find?_cons_of_pos _ (by simpa using h)]
    rfl
  · rw [if_neg h]
    unfold dictGet?
    rw [List.find?_cons_of_neg _ (by simpa using h)]

theorem processItem_success (arch : Archive) (fileMap : List (String × String))
    (utf16dec : List Nat → Option String) (detect : List Nat → Option String)
    (decodeReplace : String → List Nat → String) (getText : String → String)
    (subRefs : List Char → List Char) (outputDir : String) (st : RunState)
    (itemPath actualPath : String) (bytes : List Nat)
    (hres : resolveItem fileMap itemPath = some actualPath)
    (hdoc : isDocPath (strLower actualPath) = true)
    (hread : readEntry arch actualPath = some bytes) :
    processItem arch fileMap utf16dec detect decodeReplace getText subRefs
        outputDir st itemPath =
      { writes := st.writes ++ [(pathJoin outputDir
          ((splitext (basename actualPath)).1 ++ ".txt"),
          html_to_text getText subRefs
            (safe_decode utf16dec detect decodeReplace bytes))]
        logs := st.logs ++ [LogEvent.converted actualPath
          (pathJoin outputDir ((splitext (basename actualPath)).1 ++ ".txt"))
          (utf8Len (html_to_text getText subRefs
            (safe_decode utf16dec detect decodeReplace bytes)))]
        processed := st.processed ++
          [((splitext (basename actualPath)).1 ++ ".txt",
            utf8Len (html_to_text getText subRefs
              (safe_decode utf16dec detect decodeReplace bytes)),
            html_to_text getText subRefs
              (safe_decode utf16dec detect decodeReplace bytes))]
        totalSize := st.totalSize + utf8Len (html_to_text getText subRefs
          (safe_decode utf16dec detect decodeReplace bytes)) } := by
  unfold processItem
  rw [hres]
  simp [hdoc, hread]

/-- C10: when two distinct reading-order entries resolve to archive
entries that share a base filename, both are processed, both are
counted in the processed list and the byte total, and both appear in
the merged output; but their per-document outputs are written to the
same path, so the later entry's write silently overwrites the earlier
one's: the final content at that path is the second document's text. -/
theorem convert_basename_collision
    (utf16dec : List Nat → Option String) (detect : List Nat → Option String)
    (decodeReplace : String → List Nat → String) (getText : String → String)
    (subRefs : List Char → List Char) (elapsed : Nat)
    (n1 n2 : String) (bs1 bs2 : List Nat)
    (hne : strLower (normalize_path n1) ≠ strLower (normalize_path n2))
    (hb : basename n1 = basename n2)
    (hdoc1 : isDocPath (strLower n1) = true)
    (hdoc2 : isDocPath (strLower n2) = true)
    (hmp : pathJoin "out" ((splitext (basename n1)).1 ++ ".txt") ≠
      pathJoin "out" "book_merged.txt") :
    (let t1 := html_to_text getText subRefs
       (safe_decode utf16dec detect decodeReplace bs1)
     let t2 := html_to_text getText subRefs
       (safe_decode utf16dec detect decodeReplace bs2)
     let fn := (splitext (basename n1)).1 ++ ".txt"
     let p := pathJoin "out" fn
     let r := convert_epub_to_txt (collisionArchive n1 n2 bs1 bs2) utf16dec
       detect decodeReplace getText subRefs elapsed "book.epub" (some "out")
       true
     r.processed = [(fn, utf8Len t1, t1), (fn, utf8Len t2, t2)] ∧
       r.totalSize = utf8Len t1 + utf8Len t2 ∧
       r.writes = [(p, t1), (p, t2),
         (pathJoin "out" "book_merged.txt", mergedContent r.processed)] ∧
       applyWrites r.writes p = some t2) := by
  have harch : get_spine_order (collisionArchive n1 n2 bs1 bs2) = [n1, n2] := rfl
  have hne12 : n1 ≠ n2 := fun hh => hne (by rw [hh])
  have hfm : buildFileMap
      ((collisionArchive n1 n2 bs1 bs2).entries.map fun e => e.1) =
      [(strLower (normalize_path n2), n2), (strLower (normalize_path n1), n1)] :=
    rfl
  have hres1 : resolveItem [(strLower (normalize_path n2), n2),
      (strLower (normalize_path n1), n1)] n1 = some n1 := by
    unfold resolveItem
    rw [dictGet?_cons, if_neg (Ne.symm hne), dictGet?_cons, if_pos rfl]
  have hres2 : resolveItem [(strLower (normalize_path n2), n2),
      (strLower (normalize_path n1), n1)] n2 = some n2 := by
    unfold resolveItem
    rw [dictGet?_cons, if_pos rfl]
  have hread1 : readEntry (collisionArchive n1 n2 bs1 bs2) n1 = some bs1 := by
    unfold readEntry collisionArchive
    rw [List.find?_cons_of_pos _ (by simp)]
    rfl
  have hread2 : readEntry (collisionArchive n1 n2 bs1 bs2) n2 = some bs2 := by
    unfold readEntry collisionArchive
    rw [List.find?_cons_of_neg _ (by simp [hne12]),
      List.find?_cons_of_pos _ (by simp)]
    rfl
  have hbook : (splitext (basename "book.epub")).1 ++ "_merged.txt" =
      "book_merged.txt" := by decide
  dsimp only
  rw [convert_nonempty_eq _ utf16dec detect decodeReplace getText subRefs
    elapsed "book.epub" (some "out") true (by rw [harch]; rfl)]
  dsimp only
  rw [hfm, harch, List.foldl_cons,
    processItem_success (collisionArchive n1 n2 bs1 bs2)
      [(strLower (normalize_path n2), n2), (strLower (normalize_path n1), n1)]
      utf16dec detect decodeReplace getText subRefs "out"
      { writes := [], logs := [], processed := [], totalSize := 0 }
      n1 n1 bs1 hres1 hdoc1 hread1,
    List.foldl_cons,
    processItem_success (collisionArchive n1 n2 bs1 bs2)
      [(strLower (normalize_path n2), n2), (strLower (normalize_path n1), n1)]
      utf16dec detect decodeReplace getText subRefs "out" _
      n2 n2 bs2 hres2 hdoc2 hread2,
    List.foldl_nil]
  rw [← hb, hbook]
  dsimp only
  rw [if_pos ⟨rfl, by simp⟩]
  refine ⟨by simp, by simp, by simp, ?_⟩
  have hmpf : (pathJoin "out" "book_merged.txt" ==
      pathJoin "out" ((splitext (basename n1)).1 ++ ".txt")) = false :=
    beq_eq_false_iff_ne.mpr (Ne.symm hmp)
  simp [applyWrites, List.filter_append, hmpf]

/-- C10 (witness): a concrete archive with entries a/ch.html and
b/ch.html — both processed and merged, both written to out/ch.txt, the
second surviving. -/
theorem convert_basename_collision_witness :
    ((strLower (normalize_path "a/ch.html") ≠
        strLower (normalize_path "b/ch.html")) ∧
      basename "a/ch.html" = basename "b/ch.html" ∧
      isDocPath (strLower "a/ch.html") = true ∧
      isDocPath (strLower "b/ch.html") = true ∧
      pathJoin "out" ((splitext (basename "a/ch.html")).1 ++ ".txt") ≠
        pathJoin "out" "book_merged.txt") ∧
      (let t1 := html_to_text (fun s => s) idRefs
         (safe_decode (fun _ => none) (fun _ => none) (fun _ _ => "") [0x58])
       let t2 := html_to_text (fun s => s) idRefs
         (safe_decode (fun _ => none) (fun _ => none) (fun _ _ => "") [0x59])
       let fn := (splitext (basename "a/ch.html")).1 ++ ".txt"
       let p := pathJoin "out" fn
       let r := convert_epub_to_txt
         (collisionArchive "a/ch.html" "b/ch.html" [0x58] [0x59])
         (fun _ => none) (fun _ => none) (fun _ _ => "") (fun s => s) idRefs 0
         "book.epub" (some "out") true
       r.processed = [(fn, utf8Len t1, t1), (fn, utf8Len t2, t2)] ∧
         r.totalSize = utf8Len t1 + utf8Len t2 ∧
         r.writes = [(p, t1), (p, t2),
           (pathJoin "out" "book_merged.txt", mergedContent r.processed)] ∧
         applyWrites r.writes p = some t2) :=
  ⟨⟨by decide, by decide, by decide, by decide, by decide⟩,
    convert_basename_collision _ _ _ _ _ 0 "a/ch.html" "b/ch.html" [0x58]
      [0x59] (by decide) (by decide) (by decide) (by decide) (by decide)⟩

/-- C7 (amended): the lines of the clean_text output are exactly the
lines of the collapsed, entity-decoded text with every whitespace-only
line replaced by an empty line (all other lines, including their
leading and trailing whitespace, untouched); hence the output never
contains a nonempty line of only horizontal whitespace.  The
no-triple-newline half of the original claim is refuted separately. -/
theorem clean_text_blank_lines (subRefs : List Char → List Char) (l : List Char) :
    hasWsLine (clean_text subRefs l) = false ∧
      splitLines (clean_text subRefs l) =
        (splitLines (collapseNewlines (unescape subRefs l))).map
          fun ln => if lineWsOnly ln then [] else ln :=
  ⟨hasWsLine_stripWsLines _, splitLines_stripWsLines _⟩

end EpubToTxt

